import Mathlib

/-!
Shallow embedding of the qr-recv receiver (src/main.rs): the segment protocol
decoder, its frame iterator, and the reassembly logic in `main`.  Bytes are
lists of naturals; the variable-output hash (Blake2bVar) and the whole-file
checksum (md5) are black-box function parameters, following the interface
they are used through.  Fallible code paths (Rust panics) are modelled with
`Option`, `none` standing for a panic.
-/

namespace QrRecv

/-- Raw payload bytes recovered from one optical code. -/
abbrev Bytes := List Nat

/-- Tag byte of a metadata fragment, `'M'`. -/
def mTag : Nat := 77

/-- Tag byte of a content segment, `'D'`. -/
def dTag : Nat := 68

/-- Tag byte of a checksum segment, `'H'`. -/
def hTag : Nat := 72

/-- The closing brace byte checked by `get_metadata`. -/
def braceByte : Nat := 125

/-- Loop body of `guess_hash_len`: try candidate lengths upward from `i`.
`fuel` counts the remaining iterations of the Rust `for i in 1..data.len()`
loop, so the wrapper passes `data.len() - 1` and the invariant
`i + fuel = data.length` holds throughout. -/
def guessAux (H : Bytes → Nat → Bytes) (data : Bytes) : Nat → Nat → Option Nat
  | _, 0 => none
  | i, fuel + 1 =>
    if H (data.take (data.length - i)) i = data.drop (data.length - i) then some i
    else guessAux H data (i + 1) fuel

/-- `guess_hash_len` from src/main.rs: brute-force recovery of the trailing
hash length, trying every length from 1 up to `data.len() - 1`. -/
def guess_hash_len (H : Bytes → Nat → Bytes) (data : Bytes) : Option Nat :=
  guessAux H data 1 (data.length - 1)

/-- `QrSendMetadata` from src/main.rs (serde-deserialized JSON record). -/
structure QrSendMetadata where
  qrcode_count : Nat
  id_type : String
  hash_len : Nat
deriving Repr, DecidableEq

/-- The id width (in bytes) for each supported `id_type`; `none` models the
`panic!("Invalid id type")` arm of `get_id_and_len`. -/
def id_len_of : String → Option Nat
  | "u64" => some 8
  | "u32" => some 4
  | "u16" => some 2
  | "u8" => some 1
  | _ => none

/-- Big-endian interpretation of a byte slice (`uXX::from_be_bytes`). -/
def beNat (l : Bytes) : Nat := l.foldl (fun a b => a * 256 + b) 0

/-- `get_id_and_len` from src/main.rs; `none` models a panic (invalid id
type, or slicing `data[0..id_len]` out of bounds). -/
def get_id_and_len (data : Bytes) (md : QrSendMetadata) : Option (Nat × Nat) :=
  match id_len_of md.id_type with
  | none => none
  | some idLen =>
    if idLen ≤ data.length then some (beNat (data.take idLen), idLen) else none

/-- `QrSendData` from src/main.rs: one content segment. -/
structure QrSendData where
  id : Nat
  data : Bytes
  hash : Bytes
deriving Repr, DecidableEq

/-- `QrSendData::from_bytes`: split `[id bytes][payload][hash]`; `none`
models the slice-bound panics (`data.len() - hash_len` underflow, or
`id_size > data.len() - hash_len`). -/
def QrSendData.from_bytes (data : Bytes) (md : QrSendMetadata) : Option QrSendData :=
  let hl := md.hash_len
  match get_id_and_len data md with
  | none => none
  | some (id, idSize) =>
    if hl ≤ data.length ∧ idSize ≤ data.length - hl then
      some ⟨id, (data.drop idSize).take (data.length - hl - idSize),
        data.drop (data.length - hl)⟩
    else none

/-- `QrSendMd5Data` from src/main.rs: the whole-file checksum record. -/
structure QrSendMd5Data where
  data : Bytes
  hash : Bytes
deriving Repr, DecidableEq

/-- `QrSendMd5Data::from_bytes`.  Note the source shadows `data`: the `hash`
field is cut from the already-stripped `data`, not from the original input;
the embedding reproduces that.  `none` models the slice-bound panics. -/
def QrSendMd5Data.from_bytes (bytes : Bytes) (md : QrSendMetadata) : Option QrSendMd5Data :=
  let hl := md.hash_len
  if hl ≤ bytes.length then
    let d := bytes.take (bytes.length - hl)
    if hl ≤ d.length then some ⟨d, d.drop (d.length - hl)⟩ else none
  else none

/-- `QrSendDecoder::verify_segment`: check the trailing digest of a payload.
The decoder's `self.metadata` is passed explicitly.  `none` models the panic
on `data.len() - hash_len` underflow when the metadata hash length exceeds
the payload length. -/
def verify_segment (H : Bytes → Nat → Bytes) (metadata : Option QrSendMetadata)
    (data : Bytes) : Option Bool :=
  match metadata with
  | some md =>
    let hl := md.hash_len
    if hl ≤ data.length then
      some (decide (H (data.take (data.length - hl)) hl = data.drop (data.length - hl)))
    else none
  | none =>
    match guess_hash_len H data with
    | none => some false
    | some hl =>
      some (decide (H (data.take (data.length - hl)) hl = data.drop (data.length - hl)))

/-- Result of QR-decoding one successfully opened image: either no grid was
detected / the grid failed to decode, or a byte payload. -/
inductive Img where
  | noCode
  | payload (data : Bytes)
deriving Repr, DecidableEq

/-- One position of the sorted filename sequence: either `image::open` fails
(`unreadable`) or yields an image. -/
inductive Slot where
  | unreadable
  | img (i : Img)
deriving Repr, DecidableEq

/-- `decode` from src/main.rs, at the interface level. -/
def decode : Img → Option Bytes
  | Img.noCode => none
  | Img.payload d => some d

/-- `ImageSequenceIterator`: the sorted image sequence plus a cursor. -/
structure Iter where
  frames : List Slot
  index : Nat
deriving Repr, DecidableEq

/-- Cursor advance (`self.index += 1`). -/
def Iter.advance (it : Iter) : Iter := { it with index := it.index + 1 }

/-- `ImageSequenceIterator::next`: `None` past the end (cursor unchanged) or
when `image::open` fails (cursor already advanced), otherwise the image. -/
def Iter.next (it : Iter) : Option Img × Iter :=
  match it.frames[it.index]? with
  | none => (none, it)
  | some Slot.unreadable => (none, it.advance)
  | some (Slot.img i) => (some i, it.advance)

/-- `ImageSequenceIterator::tick_backward`. -/
def Iter.tick_backward (it : Iter) : Iter :=
  if 0 < it.index then { it with index := it.index - 1 } else it

/-- The decoder's `data_segments: HashMap<u64, QrSendData>`, modelled as an
association list whose keys stay distinct: observable lookup/insert/len
behaviour of the hash map. -/
abbrev SegMap := List (Nat × QrSendData)

/-- `HashMap::get`. -/
def SegMap.lookup : SegMap → Nat → Option QrSendData
  | [], _ => none
  | p :: m, k => if p.1 = k then some p.2 else SegMap.lookup m k

/-- `HashMap::insert`: replaces any previous binding of the key. -/
def SegMap.insert (m : SegMap) (k : Nat) (v : QrSendData) : SegMap :=
  (k, v) :: m.filter (fun p => decide (p.1 ≠ k))

/-- `HashMap::contains_key`. -/
def SegMap.contains (m : SegMap) (k : Nat) : Bool := (SegMap.lookup m k).isSome

/-- `HashMap::len`. -/
def SegMap.size (m : SegMap) : Nat := m.length

/-- The keys of the mapping. -/
def SegMap.keys (m : SegMap) : List Nat := m.map Prod.fst

/-- Loop body of `QrSendDecoder::get_metadata`, with the iterator's `next`
and `decode` inlined exactly as the `for` loop consumes them.  `fuel` bounds
the remaining frames (the wrapper passes `frames.length - index`).  Returns
the parsed metadata (or `none` if the sequence ended first) and the final
cursor; an outer `none` models a panic (`guess_hash_len(..).unwrap()` or
`serde_json::from_str(..).unwrap()`).  `parseMd` is the external
`serde_json::from_str` text parser. -/
def getMetadataAux (H : Bytes → Nat → Bytes) (parseMd : Bytes → Option QrSendMetadata) :
    Nat → Iter → Bytes → Option (Option QrSendMetadata × Iter)
  | 0, it, _ => some (none, it)
  | fuel + 1, it, mdStr =>
    match it.frames[it.index]? with
    | none => some (none, it)
    | some Slot.unreadable => some (none, it.advance)
    | some (Slot.img img) =>
      match decode img with
      | none => getMetadataAux H parseMd fuel it.advance mdStr
      | some data =>
        match verify_segment H none data with
        | none => none
        | some false => getMetadataAux H parseMd fuel it.advance mdStr
        | some true =>
          match guess_hash_len H data with
          | none => none
          | some hl =>
            let mdStr' := if data.head? = some mTag
              then mdStr ++ (data.drop 1).take (data.length - hl - 1)
              else mdStr
            if data[data.length - hl - 1]? ≠ some braceByte then
              getMetadataAux H parseMd fuel it.advance mdStr'
            else
              match parseMd mdStr' with
              | none => none
              | some md => some (some md, it.advance)

/-- `QrSendDecoder::get_metadata`. -/
def getMetadata (H : Bytes → Nat → Bytes) (parseMd : Bytes → Option QrSendMetadata)
    (it : Iter) (mdStr : Bytes) : Option (Option QrSendMetadata × Iter) :=
  getMetadataAux H parseMd (it.frames.length - it.index) it mdStr

/-- Loop body of `QrSendDecoder::get_data`.  The third result component is
`some k` when the loop stopped on a verified `'H'`-tagged frame sitting at
position `k`; `none` when the sequence ended instead.  An outer `none`
models a panic (`data[0]` on an empty payload, `verify_segment` underflow,
or `QrSendData::from_bytes` slice bounds / invalid id type). -/
def getDataAux (H : Bytes → Nat → Bytes) (md : QrSendMetadata) :
    Nat → Iter → SegMap → Option (SegMap × Iter × Option Nat)
  | 0, it, segs => some (segs, it, none)
  | fuel + 1, it, segs =>
    match it.frames[it.index]? with
    | none => some (segs, it, none)
    | some Slot.unreadable => some (segs, it.advance, none)
    | some (Slot.img img) =>
      match decode img with
      | none => getDataAux H md fuel it.advance segs
      | some data =>
        match verify_segment H (some md) data with
        | none => none
        | some false => getDataAux H md fuel it.advance segs
        | some true =>
          match data.head? with
          | none => none
          | some t =>
            if t = mTag then getDataAux H md fuel it.advance segs
            else if t = dTag then
              match QrSendData.from_bytes (data.drop 1) md with
              | none => none
              | some seg => getDataAux H md fuel it.advance (SegMap.insert segs seg.id seg)
            else if t = hTag then some (segs, it.advance, some it.index)
            else getDataAux H md fuel it.advance segs

/-- `QrSendDecoder::get_data`. -/
def getData (H : Bytes → Nat → Bytes) (md : QrSendMetadata) (it : Iter) (segs : SegMap) :
    Option (SegMap × Iter × Option Nat) :=
  getDataAux H md (it.frames.length - it.index) it segs

/-- Loop body of `QrSendDecoder::get_md5`; `total` is the decoder's
`total_md5` (initially empty).  Returns the final `total_md5` and cursor;
`none` models a panic. -/
def getMd5Aux (H : Bytes → Nat → Bytes) (md : QrSendMetadata) :
    Nat → Iter → Bytes → Option (Bytes × Iter)
  | 0, it, total => some (total, it)
  | fuel + 1, it, total =>
    match it.frames[it.index]? with
    | none => some (total, it)
    | some Slot.unreadable => some (total, it.advance)
    | some (Slot.img img) =>
      match decode img with
      | none => getMd5Aux H md fuel it.advance total
      | some data =>
        match verify_segment H (some md) data with
        | none => none
        | some false => getMd5Aux H md fuel it.advance total
        | some true =>
          match data.head? with
          | none => none
          | some t =>
            if t = hTag then
              match QrSendMd5Data.from_bytes (data.drop 1) md with
              | none => none
              | some m => some (m.data, it.advance)
            else getMd5Aux H md fuel it.advance total

/-- `QrSendDecoder::get_md5`. -/
def getMd5 (H : Bytes → Nat → Bytes) (md : QrSendMetadata) (it : Iter) (total : Bytes) :
    Option (Bytes × Iter) :=
  getMd5Aux H md (it.frames.length - it.index) it total

/-- The decoder state built by `QrSendDecoder::new` and mutated by the three
phase methods. -/
structure DecoderState where
  metadata : Option QrSendMetadata
  data_segments : SegMap
  total_md5 : Bytes

/-- `QrSendDecoder::new()`. -/
def initialState : DecoderState := ⟨none, [], []⟩

/-- Observable outcome of the reassembly tail of `main` (src/main.rs lines
282-307): silent fall-through when no metadata was parsed, an emitted output
buffer, a checksum-mismatch report, a missing-segments report, or a panic
of the `data_segments.get(&i).unwrap()` lookup. -/
inductive RunResult where
  | silent
  | emitted (buf : Bytes)
  | checksumMismatch (computed received : Bytes)
  | missing (ids : List Nat)
  | panicked
deriving Repr, DecidableEq

/-- The `for i in 0..count` concatenation loop of `main`; `none` models the
`unwrap` panic when some id in range is absent from the mapping. -/
def collect (m : SegMap) : Nat → Option Bytes
  | 0 => some []
  | n + 1 =>
    match collect m n, SegMap.lookup m n with
    | some buf, some seg => some (buf ++ seg.data)
    | _, _ => none

/-- One lowercase hex digit (`hex::encode` alphabet), as a byte. -/
def hexDigitByte (n : Nat) : Nat := if n < 10 then 48 + n else 87 + n

/-- `hex::encode`: lowercase hexadecimal expansion of a byte string. -/
def hexEncode (b : Bytes) : List Nat :=
  (b.map (fun x => [hexDigitByte (x / 16), hexDigitByte (x % 16)])).flatten

/-- The reassembly tail of `main`, over the final decoder state; `C` is the
external 16-byte whole-file checksum (`md5::compute`). -/
def reassemble (C : Bytes → Bytes) (st : DecoderState) : RunResult :=
  match st.metadata with
  | none => RunResult.silent
  | some md =>
    if md.qrcode_count = SegMap.size st.data_segments then
      match collect st.data_segments md.qrcode_count with
      | none => RunResult.panicked
      | some buf =>
        if hexEncode (C buf) = hexEncode st.total_md5 then RunResult.emitted buf
        else RunResult.checksumMismatch (C buf) st.total_md5
    else
      RunResult.missing ((List.range md.qrcode_count).filter
        (fun i => ! SegMap.contains st.data_segments i))

/-- The output file content, if any, produced by the reassembly tail. -/
def outputOf : RunResult → Option Bytes
  | RunResult.emitted buf => some buf
  | _ => none

/-- The outcome line printed by the reassembly tail of `main`: `main` prints
a success, checksum-failure or missing-segments line in the respective
branches and nothing at all when `decoder.metadata` is `None` (the
`if let Some(md)` has no `else` arm). -/
def report (C : Bytes → Bytes) (st : DecoderState) : List String :=
  match reassemble C st with
  | RunResult.silent => []
  | RunResult.emitted _ => ["md5 check passed"]
  | RunResult.checksumMismatch _ _ => ["md5 check failed"]
  | RunResult.missing _ => ["missed segments"]
  | RunResult.panicked => []

/-- A JSON value, as far as the metadata record is concerned. -/
inductive JsonVal where
  | num (n : Nat)
  | str (s : String)
  | boolean (b : Bool)
  | null
deriving Repr, DecidableEq

/-- A parsed JSON object: its field/value pairs. -/
abbrev JsonObj := List (String × JsonVal)

/-- Field lookup in a JSON object. -/
def jlookup : JsonObj → String → Option JsonVal
  | [], _ => none
  | p :: j, k => if p.1 = k then some p.2 else jlookup j k

/-- Deserialization of `QrSendMetadata` from a JSON object, following the
serde derive on the struct: the three fields must be present with the
declared types (`u64`, `String`, `u64`); `id_type` is accepted as any
string. -/
def QrSendMetadata.fromJson (j : JsonObj) : Option QrSendMetadata :=
  match jlookup j "qrcode_count" with
  | some (JsonVal.num c) =>
    match jlookup j "id_type" with
    | some (JsonVal.str t) =>
      match jlookup j "hash_len" with
      | some (JsonVal.num h) => some ⟨c, t, h⟩
      | _ => none
    | _ => none
  | _ => none

/-- Stated from the spec's words, for comparison with the code's
deserializer: a record that carries `segment_count` (`qrcode_count`),
`hash_length` (`hash_len`), and an id width drawn from the enumeration
{1, 2, 4, 8} bytes — i.e. an `id_type` among u8/u16/u32/u64. -/
def specParsesAsMetadataRecord (j : JsonObj) : Prop :=
  (∃ c, jlookup j "qrcode_count" = some (JsonVal.num c)) ∧
  (∃ t, jlookup j "id_type" = some (JsonVal.str t) ∧
    (t = "u8" ∨ t = "u16" ∨ t = "u32" ∨ t = "u64")) ∧
  (∃ h, jlookup j "hash_len" = some (JsonVal.num h))

/-- The ascending-id concatenation of a family of segments. -/
def segConcat (f : Nat → QrSendData) (n : Nat) : Bytes :=
  ((List.range n).map (fun i => (f i).data)).flatten

/-- A concrete variable-output hash used for evaluating the embedding on
concrete inputs: every frame whose trailing bytes are zero verifies. -/
def H0 : Bytes → Nat → Bytes := fun _ n => List.replicate n 0

/-- A concrete whole-file checksum used for evaluating the embedding. -/
def C0 : Bytes → Bytes := fun _ => List.replicate 16 0

/-- Concrete segment with id 0 and payload "A". -/
def segA : QrSendData := ⟨0, [65], [0]⟩

/-- Concrete segment with id 1 and payload "B". -/
def segB : QrSendData := ⟨1, [66], [0]⟩

/-- Concrete metadata: two segments, one-byte ids, one-byte hashes. -/
def md2 : QrSendMetadata := ⟨2, "u8", 1⟩

/-- Concrete full mapping for `md2`. -/
def mapAB : SegMap := [(0, segA), (1, segB)]

/-- The segment family stored in `mapAB`. -/
def famAB : Nat → QrSendData := fun i => if i = 0 then segA else segB

theorem lookup_isSome_iff_mem_keys (m : SegMap) (k : Nat) :
    (SegMap.lookup m k).isSome = true ↔ k ∈ SegMap.keys m := by
  induction m with
  | nil => simp [SegMap.lookup, SegMap.keys]
  | cons p m ih =>
    simp only [SegMap.lookup, SegMap.keys, List.map_cons, List.mem_cons]
    by_cases h : p.1 = k
    · simp [h]
    · rw [if_neg h, ih]
      simp only [SegMap.keys]
      constructor
      · exact fun hk => Or.inr hk
      · rintro (hk | hk)
        · exact absurd hk.symm h
        · exact hk

theorem size_eq_of_keys_iff (m : SegMap) (N : Nat) (hnd : (SegMap.keys m).Nodup)
    (hiff : ∀ k, k ∈ SegMap.keys m ↔ k < N) : SegMap.size m = N := by
  have hperm : (SegMap.keys m).Perm (List.range N) := by
    rw [List.perm_ext_iff_of_nodup hnd (List.nodup_range N)]
    intro a
    rw [hiff a, List.mem_range]
  have hlen := hperm.length_eq
  simp only [SegMap.keys, List.length_map, List.length_range] at hlen
  simpa [SegMap.size] using hlen

theorem collect_eq_of_lookup (m : SegMap) (f : Nat → QrSendData) :
    ∀ n, (∀ i, i < n → SegMap.lookup m i = some (f i)) →
    collect m n = some (segConcat f n) := by
  intro n
  induction n with
  | zero => intro _; simp [collect, segConcat]
  | succ n ih =>
    intro h
    have h1 := ih (fun i hi => h i (Nat.lt_succ_of_lt hi))
    have h2 := h n (Nat.lt_succ_self n)
    simp [collect, h1, h2, segConcat, List.range_succ]

theorem hexEncode_length (b : Bytes) : (hexEncode b).length = 2 * b.length := by
  induction b with
  | nil => simp [hexEncode]
  | cons x b ih =>
    simp only [hexEncode, List.map_cons, List.flatten_cons, List.length_append,
      List.length_cons, List.length_nil] at ih ⊢
    omega

theorem mapAB_mem (k : Nat) : SegMap.contains mapAB k = true ↔ k < md2.qrcode_count := by
  show (SegMap.lookup [(0, segA), (1, segB)] k).isSome = true ↔ k < 2
  simp only [SegMap.lookup]
  by_cases h0 : 0 = k
  · simp [← h0]
  · by_cases h1 : 1 = k
    · simp [← h1]
    · rw [if_neg h0, if_neg h1]
      simp only [Option.isSome_none, Bool.false_eq_true, false_iff]
      omega

theorem mapAB_get (i : Nat) (hi : i < md2.qrcode_count) :
    SegMap.lookup mapAB i = some (famAB i) := by
  have h2 : i < 2 := hi
  interval_cases i <;> rfl

/-- C1: with metadata declaring `segment_count = N`, a mapping holding
exactly the ids `0..N-1`, and a whole-file checksum that hex-matches the
accepted checksum payload, the reassembly tail of `main` emits exactly the
payloads of segments `0..N-1` concatenated in ascending id order; the
result depends only on the final mapping, not on the frame scan order. -/
theorem c1_reassembly_concat_ascending (C : Bytes → Bytes) (md : QrSendMetadata)
    (m : SegMap) (tm : Bytes) (f : Nat → QrSendData)
    (hnd : (SegMap.keys m).Nodup)
    (hmem : ∀ k, SegMap.contains m k = true ↔ k < md.qrcode_count)
    (hget : ∀ i, i < md.qrcode_count → SegMap.lookup m i = some (f i))
    (hck : hexEncode (C (segConcat f md.qrcode_count)) = hexEncode tm) :
    reassemble C ⟨some md, m, tm⟩ = RunResult.emitted (segConcat f md.qrcode_count) := by
  have hsz : SegMap.size m = md.qrcode_count :=
    size_eq_of_keys_iff m _ hnd (fun k => by
      rw [← lookup_isSome_iff_mem_keys]
      exact hmem k)
  have hc := collect_eq_of_lookup m f md.qrcode_count hget
  simp [reassemble, hsz, hc, hck]

theorem c1_reassembly_concat_ascending_witness :
    reassemble C0 ⟨some md2, mapAB, List.replicate 16 0⟩ =
      RunResult.emitted (segConcat famAB md2.qrcode_count) :=
  c1_reassembly_concat_ascending C0 md2 mapAB (List.replicate 16 0) famAB
    (by decide) mapAB_mem mapAB_get (by decide)

/-- C5: when the number of accepted segments differs from the declared
`segment_count`, `main` reports exactly the ascending list of ids in
`0..segment_count-1` that are absent from the mapping, and emits no
output. -/
theorem c5_missing_ids_report (C : Bytes → Bytes) (md : QrSendMetadata)
    (m : SegMap) (tm : Bytes)
    (hne : md.qrcode_count ≠ SegMap.size m) :
    reassemble C ⟨some md, m, tm⟩ =
      RunResult.missing ((List.range md.qrcode_count).filter
        (fun i => ! SegMap.contains m i)) ∧
    outputOf (reassemble C ⟨some md, m, tm⟩) = none ∧
    (∀ i, i ∈ (List.range md.qrcode_count).filter (fun i => ! SegMap.contains m i) ↔
      (i < md.qrcode_count ∧ SegMap.contains m i = false)) ∧
    ((List.range md.qrcode_count).filter
      (fun i => ! SegMap.contains m i)).Pairwise (· < ·) := by
  refine ⟨?_, ?_, ?_, ?_⟩
  · simp [reassemble, hne]
  · simp [reassemble, hne, outputOf]
  · intro i
    simp [List.mem_filter, List.mem_range, Bool.not_eq_true']
  · exact List.Pairwise.sublist (List.filter_sublist _) (List.pairwise_lt_range _)

theorem c5_missing_ids_report_witness :
    (reassemble C0 ⟨some md2, [(0, segA)], []⟩ =
      RunResult.missing ((List.range md2.qrcode_count).filter
        (fun i => ! SegMap.contains [(0, segA)] i)) ∧
    outputOf (reassemble C0 ⟨some md2, [(0, segA)], []⟩) = none ∧
    (∀ i, i ∈ (List.range md2.qrcode_count).filter
        (fun i => ! SegMap.contains [(0, segA)] i) ↔
      (i < md2.qrcode_count ∧ SegMap.contains [(0, segA)] i = false)) ∧
    ((List.range md2.qrcode_count).filter
      (fun i => ! SegMap.contains [(0, segA)] i)).Pairwise (· < ·)) ∧
    (List.range md2.qrcode_count).filter
      (fun i => ! SegMap.contains [(0, segA)] i) = [1] :=
  ⟨c5_missing_ids_report C0 md2 [(0, segA)] [] (by decide), by decide⟩

/-- C6: when all declared segments are present but the whole-file checksum
of the reassembled buffer does not hex-match the accepted checksum payload,
`main` reports a checksum mismatch and emits no output; an empty (never
accepted) checksum payload can never hex-match the 16-byte computed
checksum, so it always falls in this mismatch branch. -/
theorem c6_checksum_mismatch_no_output (C : Bytes → Bytes) (md : QrSendMetadata)
    (m : SegMap) (tm : Bytes) (f : Nat → QrSendData)
    (hnd : (SegMap.keys m).Nodup)
    (hmem : ∀ k, SegMap.contains m k = true ↔ k < md.qrcode_count)
    (hget : ∀ i, i < md.qrcode_count → SegMap.lookup m i = some (f i))
    (hck : hexEncode (C (segConcat f md.qrcode_count)) ≠ hexEncode tm) :
    reassemble C ⟨some md, m, tm⟩ =
      RunResult.checksumMismatch (C (segConcat f md.qrcode_count)) tm ∧
    outputOf (reassemble C ⟨some md, m, tm⟩) = none ∧
    (∀ buf, (C buf).length = 16 → hexEncode (C buf) ≠ hexEncode ([] : Bytes)) := by
  have hsz : SegMap.size m = md.qrcode_count :=
    size_eq_of_keys_iff m _ hnd (fun k => by
      rw [← lookup_isSome_iff_mem_keys]
      exact hmem k)
  have hc := collect_eq_of_lookup m f md.qrcode_count hget
  refine ⟨?_, ?_, ?_⟩
  · simp [reassemble, hsz, hc, hck]
  · simp [reassemble, hsz, hc, hck, outputOf]
  · intro buf h16 h
    have hl := congrArg List.length h
    rw [hexEncode_length, hexEncode_length, h16] at hl
    simp at hl

theorem c6_checksum_mismatch_no_output_witness :
    reassemble C0 ⟨some md2, mapAB, []⟩ =
      RunResult.checksumMismatch (C0 (segConcat famAB md2.qrcode_count)) [] ∧
    outputOf (reassemble C0 ⟨some md2, mapAB, []⟩) = none ∧
    (∀ buf, (C0 buf).length = 16 → hexEncode (C0 buf) ≠ hexEncode ([] : Bytes)) :=
  c6_checksum_mismatch_no_output C0 md2 mapAB [] famAB
    (by decide) mapAB_mem mapAB_get (by decide)

/-- The success condition probed by `guess_hash_len` at candidate length
`i`: hashing all but the last `i` bytes reproduces the last `i` bytes. -/
abbrev hashMatchAt (H : Bytes → Nat → Bytes) (data : Bytes) (i : Nat) : Prop :=
  H (data.take (data.length - i)) i = data.drop (data.length - i)

theorem guessAux_some_iff (H : Bytes → Nat → Bytes) (data : Bytes) :
    ∀ (fuel i r : Nat), i + fuel = data.length →
    (guessAux H data i fuel = some r ↔
      (i ≤ r ∧ r < data.length ∧ hashMatchAt H data r ∧
        ∀ j, i ≤ j → j < r → ¬ hashMatchAt H data j)) := by
  intro fuel
  induction fuel with
  | zero =>
    intro i r hinv
    simp only [guessAux]
    constructor
    · intro h; cases h
    · rintro ⟨h1, h2, -, -⟩
      omega
  | succ fuel ih =>
    intro i r hinv
    simp only [guessAux]
    by_cases hm : hashMatchAt H data i
    · rw [if_pos hm]
      constructor
      · intro h
        injection h with h
        subst h
        exact ⟨Nat.le_refl i, by omega, hm, fun j hij hji => by omega⟩
      · rintro ⟨h1, h2, h3, h4⟩
        have hri : r = i := by
          by_contra hne
          exact h4 i (Nat.le_refl i) (Nat.lt_of_le_of_ne h1 (Ne.symm hne)) hm
        rw [hri]
    · rw [if_neg hm, ih (i + 1) r (by omega)]
      constructor
      · rintro ⟨h1, h2, h3, h4⟩
        refine ⟨by omega, h2, h3, fun j hij hjr => ?_⟩
        rcases Nat.eq_or_lt_of_le hij with he | hl
        · rw [← he]; exact hm
        · exact h4 j hl hjr
      · rintro ⟨h1, h2, h3, h4⟩
        refine ⟨?_, h2, h3, fun j hij hjr => h4 j (by omega) hjr⟩
        rcases Nat.eq_or_lt_of_le h1 with he | hl
        · exact absurd (he ▸ h3) hm
        · omega

theorem guessAux_none_iff (H : Bytes → Nat → Bytes) (data : Bytes) :
    ∀ (fuel i : Nat), i + fuel = data.length →
    (guessAux H data i fuel = none ↔
      ∀ j, i ≤ j → j < data.length → ¬ hashMatchAt H data j) := by
  intro fuel
  induction fuel with
  | zero =>
    intro i hinv
    simp only [guessAux, true_iff]
    intro j hij hj
    omega
  | succ fuel ih =>
    intro i hinv
    simp only [guessAux]
    by_cases hm : hashMatchAt H data i
    · rw [if_pos hm]
      constructor
      · intro h; cases h
      · intro hall
        exact absurd hm (hall i (Nat.le_refl i) (by omega))
    · rw [if_neg hm, ih (i + 1) (by omega)]
      constructor
      · intro hall j hij hjl
        rcases Nat.eq_or_lt_of_le hij with he | hl
        · rw [← he]; exact hm
        · exact hall j hl hjl
      · exact fun hall j hij hjl => hall j (by omega) hjl

/-- C8: `guess_hash_len` returns `some i` exactly when `i` is the smallest
candidate in `1 .. data.length - 1` whose `i`-byte hash of the prefix equals
the `i`-byte suffix, returns `none` exactly when no such candidate exists,
and in particular returns `none` on inputs of length 0 or 1. -/
theorem c8_guess_hash_len_characterization (H : Bytes → Nat → Bytes) (data : Bytes) :
    (∀ r, guess_hash_len H data = some r ↔
      (1 ≤ r ∧ r < data.length ∧ hashMatchAt H data r ∧
        ∀ j, 1 ≤ j → j < r → ¬ hashMatchAt H data j)) ∧
    (guess_hash_len H data = none ↔
      ∀ j, 1 ≤ j → j < data.length → ¬ hashMatchAt H data j) ∧
    (data.length ≤ 1 → guess_hash_len H data = none) := by
  by_cases hlen : data.length = 0
  · refine ⟨?_, ?_, ?_⟩
    · intro r
      simp only [guess_hash_len, hlen, guessAux]
      constructor
      · intro h; cases h
      · rintro ⟨-, h2, -, -⟩
        omega
    · simp only [guess_hash_len, hlen, guessAux, true_iff]
      intro j hij hj
      omega
    · intro _
      simp [guess_hash_len, hlen, guessAux]
  · have hpos : 1 ≤ data.length := by omega
    refine ⟨?_, ?_, ?_⟩
    · intro r
      exact guessAux_some_iff H data (data.length - 1) 1 r (by omega)
    · exact guessAux_none_iff H data (data.length - 1) 1 (by omega)
    · intro hle
      have h1 : data.length - 1 = 0 := by omega
      simp [guess_hash_len, h1, guessAux]

theorem c8_guess_hash_len_characterization_witness :
    guess_hash_len H0 [5, 0] = some 1 ∧ guess_hash_len H0 [1, 2] = none := by
  have ha := c8_guess_hash_len_characterization H0 [5, 0]
  have hb := c8_guess_hash_len_characterization H0 [1, 2]
  constructor
  · exact (ha.1 1).mpr ⟨by omega, by decide, by decide, fun j h1 h2 => by omega⟩
  · refine hb.2.1.mpr (fun j h1 h2 => ?_)
    have hj : j = 1 := by
      simp only [List.length_cons, List.length_nil] at h2
      omega
    subst hj
    decide

/-- Concrete frame sequence whose second data frame carries the
out-of-range id 5 while the metadata declares only 2 segments. -/
def framesBad : List Slot :=
  [Slot.img (Img.payload [68, 0, 65, 0]), Slot.img (Img.payload [68, 5, 66, 0])]

/-- The segment decoded from the second frame of `framesBad`. -/
def segBad5 : QrSendData := ⟨5, [66], [0]⟩

/-- The mapping `get_data` builds from `framesBad`. -/
def mapBad : SegMap := [(5, segBad5), (0, segA)]

/-- C3 counterexample: `get_data` happily accepts a verified data frame
whose id (5) is at least `segment_count` (2); the resulting mapping has as
many entries as `segment_count` yet id 1 is absent, so the per-id lookup of
the reassembly loop fails (the `unwrap` panics) instead of succeeding. -/
theorem c3_out_of_range_id_counterexample :
    getData H0 md2 ⟨framesBad, 0⟩ [] = some (mapBad, ⟨framesBad, 2⟩, none) ∧
    SegMap.size mapBad = md2.qrcode_count ∧
    SegMap.contains mapBad 5 = true ∧
    md2.qrcode_count ≤ 5 ∧
    SegMap.lookup mapBad 1 = none ∧
    reassemble C0 ⟨some md2, mapBad, []⟩ = RunResult.panicked :=
  ⟨rfl, rfl, rfl, by decide, rfl, rfl⟩

theorem collect_isSome_of_lookup (m : SegMap) :
    ∀ n, (∀ i, i < n → (SegMap.lookup m i).isSome = true) →
    (collect m n).isSome = true := by
  intro n
  induction n with
  | zero => intro _; simp [collect]
  | succ n ih =>
    intro h
    have h1 := ih fun i hi => h i (Nat.lt_succ_of_lt hi)
    have h2 := h n (Nat.lt_succ_self n)
    rcases Option.isSome_iff_exists.mp h1 with ⟨buf, hb⟩
    rcases Option.isSome_iff_exists.mp h2 with ⟨seg, hs⟩
    simp [collect, hb, hs]

/-- C3 amended: provided every accepted id is below `segment_count` (as is
the case for frames produced by the sender protocol), a mapping whose size
reaches `segment_count` necessarily holds every id `0..segment_count-1`,
so each per-id lookup of the reassembly loop succeeds and reassembly never
panics. -/
theorem c3_bounded_ids_no_gaps (md : QrSendMetadata) (m : SegMap) (tm : Bytes)
    (C : Bytes → Bytes)
    (hnd : (SegMap.keys m).Nodup)
    (hlt : ∀ k ∈ SegMap.keys m, k < md.qrcode_count)
    (hsz : SegMap.size m = md.qrcode_count) :
    (∀ i, i < md.qrcode_count → (SegMap.lookup m i).isSome = true) ∧
    reassemble C ⟨some md, m, tm⟩ ≠ RunResult.panicked := by
  have hcomplete : ∀ i, i < md.qrcode_count → i ∈ SegMap.keys m := by
    intro i hi
    have hsub : (SegMap.keys m).toFinset ⊆ Finset.range md.qrcode_count := by
      intro a ha
      rw [List.mem_toFinset] at ha
      rw [Finset.mem_range]
      exact hlt a ha
    have hcard : (SegMap.keys m).toFinset.card = md.qrcode_count := by
      rw [List.toFinset_card_of_nodup hnd]
      simp only [SegMap.keys, List.length_map]
      exact hsz
    have heq : (SegMap.keys m).toFinset = Finset.range md.qrcode_count :=
      Finset.eq_of_subset_of_card_le hsub (by rw [hcard, Finset.card_range])
    have hmem : i ∈ (SegMap.keys m).toFinset := by
      rw [heq, Finset.mem_range]
      exact hi
    rwa [List.mem_toFinset] at hmem
  have hlook : ∀ i, i < md.qrcode_count → (SegMap.lookup m i).isSome = true :=
    fun i hi => (lookup_isSome_iff_mem_keys m i).mpr (hcomplete i hi)
  refine ⟨hlook, ?_⟩
  have hc := collect_isSome_of_lookup m md.qrcode_count hlook
  rcases Option.isSome_iff_exists.mp hc with ⟨buf, hb⟩
  simp only [reassemble]
  rw [hsz]
  simp only [if_pos rfl, hb]
  by_cases hck : hexEncode (C buf) = hexEncode tm
  · rw [if_pos hck]
    simp
  · rw [if_neg hck]
    simp

theorem c3_bounded_ids_no_gaps_witness :
    (∀ i, i < md2.qrcode_count → (SegMap.lookup mapAB i).isSome = true) ∧
    reassemble C0 ⟨some md2, mapAB, []⟩ ≠ RunResult.panicked :=
  c3_bounded_ids_no_gaps md2 mapAB [] C0 (by decide) (by decide) (by decide)

/-- C10 counterexample: with no metadata parsed, the reassembly tail of
`main` emits no output but also reports nothing at all (the
`if let Some(md)` in `main` has no `else` arm): in particular no
"no transmission detected" report exists. -/
theorem c10_no_metadata_counterexample :
    reassemble C0 ⟨none, [], []⟩ = RunResult.silent ∧
    outputOf (reassemble C0 ⟨none, [], []⟩) = none ∧
    report C0 ⟨none, [], []⟩ = [] ∧
    ¬ ("no transmission detected" ∈ report C0 ⟨none, [], []⟩) :=
  ⟨rfl, rfl, rfl, by simp [report, reassemble]⟩

/-- C10 amended: when no metadata was ever parsed, no output file is
produced, and the run ends silently, with no report of any kind. -/
theorem c10_no_metadata_silent (C : Bytes → Bytes) (st : DecoderState)
    (h : st.metadata = none) :
    reassemble C st = RunResult.silent ∧
    outputOf (reassemble C st) = none ∧
    report C st = [] := by
  rcases st with ⟨mdo, m, tm⟩
  simp only at h
  subst h
  exact ⟨rfl, rfl, rfl⟩

theorem c10_no_metadata_silent_witness :
    reassemble C0 ⟨none, [(0, segA)], [1, 2]⟩ = RunResult.silent ∧
    outputOf (reassemble C0 ⟨none, [(0, segA)], [1, 2]⟩) = none ∧
    report C0 ⟨none, [(0, segA)], [1, 2]⟩ = [] :=
  c10_no_metadata_silent C0 ⟨none, [(0, segA)], [1, 2]⟩ rfl

/-- A verified metadata fragment frame (body "{", one-byte digest) sitting
after an unreadable image in `framesUnreadable`. -/
def mFrameStub : Bytes := [77, 123, 0]

/-- A data-phase sequence holding a single 1-byte payload, shorter than the
declared 4-byte hash length. -/
def framesShort : List Slot := [Slot.img (Img.payload [68])]

/-- Metadata declaring a 4-byte per-segment hash. -/
def md4 : QrSendMetadata := ⟨1, "u8", 4⟩

/-- A sequence whose first image is unreadable and whose second frame is a
perfectly valid metadata fragment. -/
def framesUnreadable : List Slot := [Slot.unreadable, Slot.img (Img.payload mFrameStub)]

/-- C2 (code bug): a payload shorter than the known hash length does not
get skipped: `verify_segment` evaluates `data.len() - hash_len`, which
panics (usize underflow / out-of-range slice), aborting the run — modelled
as `none`.  Likewise an unreadable image ends the phase loop (`next`
returns `None`) instead of skipping to the following frame: metadata
acquisition on `framesUnreadable` stops at index 1 with no metadata even
though the very next frame is a valid, verifiable metadata fragment. -/
theorem c2_short_payload_aborts :
    verify_segment H0 (some md4) [68] = none ∧
    getData H0 md4 ⟨framesShort, 0⟩ [] = none ∧
    getMetadata H0 (fun _ => none) ⟨framesUnreadable, 0⟩ [] =
      some (none, ⟨framesUnreadable, 1⟩) ∧
    verify_segment H0 none mFrameStub = some true :=
  ⟨rfl, rfl, rfl, rfl⟩

/-- A JSON metadata record whose `id_type` is a string outside the
supported u8/u16/u32/u64 enumeration. -/
def jBad : JsonObj :=
  [("qrcode_count", JsonVal.num 2), ("id_type", JsonVal.str "u128"),
   ("hash_len", JsonVal.num 4)]

/-- C4 counterexample: the metadata record deserializes successfully for an
`id_type` ("u128") outside the {1, 2, 4, 8}-byte id-width enumeration —
the enumeration is not checked at parse time (the deserializer accepts any
string; `get_id_and_len` only rejects it later, with a panic). -/
theorem c4_unknown_id_type_parses_counterexample :
    (QrSendMetadata.fromJson jBad).isSome = true ∧
    QrSendMetadata.fromJson jBad = some ⟨2, "u128", 4⟩ ∧
    id_len_of "u128" = none ∧
    ¬ specParsesAsMetadataRecord jBad := by
  refine ⟨rfl, rfl, rfl, ?_⟩
  rintro ⟨-, ⟨t, ht, henum⟩, -⟩
  have hv : jlookup jBad "id_type" = some (JsonVal.str "u128") := rfl
  rw [hv] at ht
  injection ht with ht1
  injection ht1 with ht2
  subst ht2
  rcases henum with h | h | h | h <;> exact absurd h (by decide)

/-- C4 amended: the accumulated metadata text parses successfully exactly
when it is a JSON record carrying `qrcode_count` and `hash_len` as numbers
and `id_type` as a string — any string: the {1, 2, 4, 8}-byte id-width
enumeration is not part of the parse-success condition.  When the current
frame is a verified metadata fragment whose body ends with a closing brace
and the accumulated text parses, `get_metadata` stores the record and
returns (control passes to the data phase). -/
theorem c4_metadata_parse_characterization :
    (∀ j : JsonObj, (QrSendMetadata.fromJson j).isSome = true ↔
      ((∃ c, jlookup j "qrcode_count" = some (JsonVal.num c)) ∧
       (∃ t, jlookup j "id_type" = some (JsonVal.str t)) ∧
       (∃ h, jlookup j "hash_len" = some (JsonVal.num h)))) ∧
    (∀ (H : Bytes → Nat → Bytes) (parseMd : Bytes → Option QrSendMetadata)
       (it : Iter) (mdStr data : Bytes) (hl : Nat) (md : QrSendMetadata),
      it.frames[it.index]? = some (Slot.img (Img.payload data)) →
      verify_segment H none data = some true →
      guess_hash_len H data = some hl →
      data.head? = some mTag →
      data[data.length - hl - 1]? = some braceByte →
      parseMd (mdStr ++ (data.drop 1).take (data.length - hl - 1)) = some md →
      getMetadata H parseMd it mdStr = some (some md, it.advance)) := by
  constructor
  · intro j
    constructor
    · intro h
      have h1 : ∃ c, jlookup j "qrcode_count" = some (JsonVal.num c) := by
        rcases hq : jlookup j "qrcode_count" with _ | v
        · simp [QrSendMetadata.fromJson, hq] at h
        · cases v with
          | num c => exact ⟨c, rfl⟩
          | str s => simp [QrSendMetadata.fromJson, hq] at h
          | boolean b => simp [QrSendMetadata.fromJson, hq] at h
          | null => simp [QrSendMetadata.fromJson, hq] at h
      rcases h1 with ⟨c, hq⟩
      have h2 : ∃ t, jlookup j "id_type" = some (JsonVal.str t) := by
        rcases ht : jlookup j "id_type" with _ | v
        · simp [QrSendMetadata.fromJson, hq, ht] at h
        · cases v with
          | num n => simp [QrSendMetadata.fromJson, hq, ht] at h
          | str t => exact ⟨t, rfl⟩
          | boolean b => simp [QrSendMetadata.fromJson, hq, ht] at h
          | null => simp [QrSendMetadata.fromJson, hq, ht] at h
      rcases h2 with ⟨t, ht⟩
      have h3 : ∃ hh, jlookup j "hash_len" = some (JsonVal.num hh) := by
        rcases hh : jlookup j "hash_len" with _ | v
        · simp [QrSendMetadata.fromJson, hq, ht, hh] at h
        · cases v with
          | num n => exact ⟨n, rfl⟩
          | str s => simp [QrSendMetadata.fromJson, hq, ht, hh] at h
          | boolean b => simp [QrSendMetadata.fromJson, hq, ht, hh] at h
          | null => simp [QrSendMetadata.fromJson, hq, ht, hh] at h
      exact ⟨⟨c, hq⟩, ⟨t, ht⟩, h3⟩
    · rintro ⟨⟨c, hq⟩, ⟨t, ht⟩, ⟨hh, hhh⟩⟩
      simp [QrSendMetadata.fromJson, hq, ht, hhh]
  · intro H parseMd it mdStr data hl md hframe hver hguess htagM hbrace hparse
    have hidx : it.index < it.frames.length := by
      by_contra hge
      rw [List.getElem?_eq_none (by omega)] at hframe
      cases hframe
    obtain ⟨fuel, hfuel⟩ : ∃ fuel, it.frames.length - it.index = fuel + 1 :=
      ⟨it.frames.length - it.index - 1, by omega⟩
    show getMetadataAux H parseMd (it.frames.length - it.index) it mdStr = _
    rw [hfuel]
    simp only [getMetadataAux, hframe, decode, hver, hguess, htagM, hbrace]
    simp only [if_pos rfl, ne_eq, not_true_eq_false, if_neg, ite_false, hparse]
    rw [List.drop_one] at hparse
    simp [hparse]

theorem c4_metadata_parse_characterization_witness :
    ((QrSendMetadata.fromJson jBad).isSome = true ↔
      ((∃ c, jlookup jBad "qrcode_count" = some (JsonVal.num c)) ∧
       (∃ t, jlookup jBad "id_type" = some (JsonVal.str t)) ∧
       (∃ h, jlookup jBad "hash_len" = some (JsonVal.num h)))) ∧
    getMetadata H0 (fun _ => some md2) ⟨[Slot.img (Img.payload [77, 123, 125, 0])], 0⟩ [] =
      some (some md2, Iter.advance ⟨[Slot.img (Img.payload [77, 123, 125, 0])], 0⟩) :=
  ⟨c4_metadata_parse_characterization.1 jBad,
   c4_metadata_parse_characterization.2 H0 (fun _ => some md2)
     ⟨[Slot.img (Img.payload [77, 123, 125, 0])], 0⟩ [] [77, 123, 125, 0] 1 md2
     rfl rfl rfl rfl rfl rfl⟩

theorem getDataAux_stop (H : Bytes → Nat → Bytes) (md : QrSendMetadata) :
    ∀ (fuel : Nat) (it : Iter) (segs segs' : SegMap) (it' : Iter) (k : Nat),
    getDataAux H md fuel it segs = some (segs', it', some k) →
    it'.frames = it.frames ∧ it'.index = k + 1 ∧
    ∃ d, it.frames[k]? = some (Slot.img (Img.payload d)) ∧
      verify_segment H (some md) d = some true ∧ d.head? = some hTag := by
  intro fuel
  induction fuel with
  | zero =>
    intro it segs segs' it' k h
    simp [getDataAux] at h
  | succ fuel ih =>
    intro it segs segs' it' k h
    rcases hg : it.frames[it.index]? with _ | s
    · simp only [getDataAux, hg] at h
      simp at h
    · cases s with
      | unreadable =>
        simp only [getDataAux, hg] at h
        simp at h
      | img i =>
        cases i with
        | noCode =>
          simp only [getDataAux, hg, decode] at h
          exact ih it.advance segs segs' it' k h
        | payload data =>
          simp only [getDataAux, hg, decode] at h
          rcases hv : verify_segment H (some md) data with _ | b
          · simp only [hv] at h
            exact Option.noConfusion h
          · cases b with
            | false =>
              simp only [hv] at h
              exact ih it.advance segs segs' it' k h
            | true =>
              simp only [hv] at h
              rcases hh : data.head? with _ | t
              · simp only [hh] at h
                exact Option.noConfusion h
              · simp only [hh] at h
                by_cases hm : t = mTag
                · rw [if_pos hm] at h
                  exact ih it.advance segs segs' it' k h
                · rw [if_neg hm] at h
                  by_cases hd : t = dTag
                  · rw [if_pos hd] at h
                    rcases hf : QrSendData.from_bytes (data.drop 1) md with _ | seg
                    · simp only [hf] at h
                      exact Option.noConfusion h
                    · simp only [hf] at h
                      exact ih it.advance _ segs' it' k h
                  · rw [if_neg hd] at h
                    by_cases hht : t = hTag
                    · rw [if_pos hht] at h
                      simp only [Option.some.injEq, Prod.mk.injEq] at h
                      obtain ⟨h1, h2, h3⟩ := h
                      subst h1
                      rw [← h2, ← h3]
                      refine ⟨rfl, rfl, data, hg, hv, ?_⟩
                      rw [hh, hht]
                    · rw [if_neg hht] at h
                      exact ih it.advance segs segs' it' k h

/-- C7: whenever the data phase stops because it consumed a verified frame
with tag `'H'` at position `k`, the cursor stands at `k + 1`, so the
single-step rewind in `main` puts it back at `k` and the very first frame
the checksum phase examines is that same `'H'` frame. -/
theorem c7_h_frame_rewind_reexamined (H : Bytes → Nat → Bytes) (md : QrSendMetadata)
    (it : Iter) (segs segs' : SegMap) (it' : Iter) (k : Nat)
    (h : getData H md it segs = some (segs', it', some k)) :
    it'.index = k + 1 ∧
    (Iter.tick_backward it').index = k ∧
    ∃ d, it.frames[k]? = some (Slot.img (Img.payload d)) ∧
      verify_segment H (some md) d = some true ∧ d.head? = some hTag ∧
      (Iter.tick_backward it').next = (some (Img.payload d), it') := by
  obtain ⟨hfr, hidx, d, hget, hver, htg⟩ :=
    getDataAux_stop H md (it.frames.length - it.index) it segs segs' it' k h
  rcases it' with ⟨fr', ix'⟩
  simp only at hfr hidx
  subst hfr
  subst hidx
  have htb : Iter.tick_backward ⟨it.frames, k + 1⟩ = ⟨it.frames, k⟩ := by
    simp [Iter.tick_backward]
  refine ⟨rfl, by rw [htb], d, hget, hver, htg, ?_⟩
  rw [htb]
  simp [Iter.next, hget, Iter.advance]

/-- A data-phase sequence consisting of a single valid checksum frame. -/
def framesH : List Slot := [Slot.img (Img.payload [72, 0])]

theorem c7_h_frame_rewind_reexamined_witness :
    (Iter.mk framesH 1).index = 0 + 1 ∧
    (Iter.tick_backward ⟨framesH, 1⟩).index = 0 ∧
    ∃ d, (Iter.mk framesH 0).frames[0]? = some (Slot.img (Img.payload d)) ∧
      verify_segment H0 (some md2) d = some true ∧ d.head? = some hTag ∧
      (Iter.tick_backward ⟨framesH, 1⟩).next = (some (Img.payload d), ⟨framesH, 1⟩) :=
  c7_h_frame_rewind_reexamined H0 md2 ⟨framesH, 0⟩ [] [] ⟨framesH, 1⟩ 0 rfl

theorem mem_insert_iff (m : SegMap) (k : Nat) (v : QrSendData) (p : Nat × QrSendData) :
    p ∈ SegMap.insert m k v ↔ p = (k, v) ∨ (p ∈ m ∧ p.1 ≠ k) := by
  simp [SegMap.insert, List.mem_filter]

theorem lookup_insert_self (m : SegMap) (k : Nat) (v : QrSendData) :
    SegMap.lookup (SegMap.insert m k v) k = some v := by
  simp [SegMap.insert, SegMap.lookup]

theorem lookup_filter_ne (m : SegMap) (k j : Nat) (hj : j ≠ k) :
    SegMap.lookup (m.filter (fun p => decide (p.1 ≠ k))) j = SegMap.lookup m j := by
  induction m with
  | nil => rfl
  | cons p m ih =>
    by_cases hp : p.1 = k
    · rw [List.filter_cons_of_neg (by simp [hp])]
      rw [ih]
      simp only [SegMap.lookup]
      rw [if_neg (fun he => hj (hp ▸ he).symm)]
    · rw [List.filter_cons_of_pos (by simp [hp])]
      simp only [SegMap.lookup]
      by_cases hpj : p.1 = j
      · rw [if_pos hpj, if_pos hpj]
      · rw [if_neg hpj, if_neg hpj, ih]

theorem getDataAux_entries (H : Bytes → Nat → Bytes) (md : QrSendMetadata) :
    ∀ (fuel : Nat) (it : Iter) (segs : SegMap) (res : SegMap × Iter × Option Nat),
    getDataAux H md fuel it segs = some res →
    ∀ p ∈ res.1, p ∈ segs ∨
      ∃ (k : Nat) (d : Bytes) (seg : QrSendData),
        it.frames[k]? = some (Slot.img (Img.payload d)) ∧
        verify_segment H (some md) d = some true ∧ d.head? = some dTag ∧
        QrSendData.from_bytes (d.drop 1) md = some seg ∧ p = (seg.id, seg) := by
  intro fuel
  induction fuel with
  | zero =>
    intro it segs res h p hp
    rw [show getDataAux H md 0 it segs = some (segs, it, none) from rfl] at h
    injection h with h
    subst h
    exact Or.inl hp
  | succ fuel ih =>
    intro it segs res h p hp
    rcases hg : it.frames[it.index]? with _ | s
    · simp only [getDataAux, hg] at h
      injection h with h
      subst h
      exact Or.inl hp
    · cases s with
      | unreadable =>
        simp only [getDataAux, hg] at h
        injection h with h
        subst h
        exact Or.inl hp
      | img i =>
        cases i with
        | noCode =>
          simp only [getDataAux, hg, decode] at h
          exact ih it.advance segs res h p hp
        | payload data =>
          simp only [getDataAux, hg, decode] at h
          rcases hv : verify_segment H (some md) data with _ | b
          · simp only [hv] at h
            exact Option.noConfusion h
          · cases b with
            | false =>
              simp only [hv] at h
              exact ih it.advance segs res h p hp
            | true =>
              simp only [hv] at h
              rcases hh : data.head? with _ | t
              · simp only [hh] at h
                exact Option.noConfusion h
              · simp only [hh] at h
                by_cases hm : t = mTag
                · rw [if_pos hm] at h
                  exact ih it.advance segs res h p hp
                · rw [if_neg hm] at h
                  by_cases hd : t = dTag
                  · rw [if_pos hd] at h
                    rcases hf : QrSendData.from_bytes (data.drop 1) md with _ | seg
                    · simp only [hf] at h
                      exact Option.noConfusion h
                    · simp only [hf] at h
                      rcases ih it.advance _ res h p hp with hmem | ⟨k, d, sg, h1, h2, h3, h4, h5⟩
                      · rcases (mem_insert_iff segs seg.id seg p).mp hmem with he | ⟨hin, -⟩
                        · exact Or.inr ⟨it.index, data, seg, hg, hv, by rw [hh, hd], hf, he⟩
                        · exact Or.inl hin
                      · exact Or.inr ⟨k, d, sg, h1, h2, h3, h4, h5⟩
                  · rw [if_neg hd] at h
                    by_cases hht : t = hTag
                    · rw [if_pos hht] at h
                      injection h with h
                      subst h
                      exact Or.inl hp
                    · rw [if_neg hht] at h
                      exact ih it.advance segs res h p hp

/-- C9: every entry of the mapping produced by the data phase either was
present before the phase ran or stems from a frame that passed digest
verification (the variable-output hash of its tag-plus-body prefix equals
its trailing `hash_len` bytes) and carried tag `'D'`, keyed by the
segment's id; and inserting under an existing id replaces the stored
segment while leaving every other id's binding unchanged
(last-seen-wins). -/
theorem c9_stored_segments_verified (H : Bytes → Nat → Bytes) (md : QrSendMetadata)
    (it : Iter) (segs : SegMap) (res : SegMap × Iter × Option Nat) :
    (getData H md it segs = some res →
      ∀ p ∈ res.1, p ∈ segs ∨
        ∃ (k : Nat) (d : Bytes) (seg : QrSendData),
          it.frames[k]? = some (Slot.img (Img.payload d)) ∧
          verify_segment H (some md) d = some true ∧ d.head? = some dTag ∧
          QrSendData.from_bytes (d.drop 1) md = some seg ∧ p = (seg.id, seg)) ∧
    (∀ (m : SegMap) (k : Nat) (v : QrSendData),
      SegMap.lookup (SegMap.insert m k v) k = some v ∧
      ∀ j, j ≠ k → SegMap.lookup (SegMap.insert m k v) j = SegMap.lookup m j) := by
  constructor
  · intro h
    exact getDataAux_entries H md (it.frames.length - it.index) it segs res h
  · intro m k v
    refine ⟨lookup_insert_self m k v, fun j hj => ?_⟩
    simp only [SegMap.insert, SegMap.lookup]
    rw [if_neg (fun he => hj he.symm)]
    exact lookup_filter_ne m k j hj

/-- A data-phase sequence holding a single valid data frame with id 0. -/
def framesD : List Slot := [Slot.img (Img.payload [68, 0, 65, 0])]

theorem c9_stored_segments_verified_witness :
    ((0, segA) ∈ ([] : SegMap) ∨
      ∃ (k : Nat) (d : Bytes) (seg : QrSendData),
        (Iter.mk framesD 0).frames[k]? = some (Slot.img (Img.payload d)) ∧
        verify_segment H0 (some md2) d = some true ∧ d.head? = some dTag ∧
        QrSendData.from_bytes (d.drop 1) md2 = some seg ∧ ((0 : Nat), segA) = (seg.id, seg)) ∧
    SegMap.lookup (SegMap.insert [(0, segA)] 0 segB) 0 = some segB :=
  ⟨(c9_stored_segments_verified H0 md2 ⟨framesD, 0⟩ []
        ([(0, segA)], ⟨framesD, 1⟩, none)).1 rfl (0, segA) (by simp),
   ((c9_stored_segments_verified H0 md2 ⟨framesD, 0⟩ []
        ([(0, segA)], ⟨framesD, 1⟩, none)).2 [(0, segA)] 0 segB).1⟩

end QrRecv
